import Mathlib

/-!
Verification of the texture-fill compositing engine of this repository
(src/src/text/TextItem.js, src/src/text/PointText.js and the CompoundPath
code shipped with examples/Text/TextureFill.html), shallowly embedded in
Lean 4.  Numbers that are JavaScript doubles in the source are modelled as
rationals; JavaScript `Map` objects are modelled as association lists with
unique keys; the DOM image-loading machinery is modelled as an explicit
pending-load list with completion events.
-/

namespace PaperTexture

abbrev Url := Nat

abbrev Img := Nat

/-! ## ImageCache (src/src/text/TextItem.js lines 13-47)

`_cache` is a JS `Map` keyed by url; we model it as an association list in
insertion order with unique keys.  `_order` is the recency array, oldest
first.  `_maxSize` is 10 in the source. -/

/-- Keys of an association list, in order. -/
def keysOf (m : List (Url × Img)) : List Url :=
  m.map Prod.fst

/-- JS `Map.get`: first (unique) entry with the given key. -/
def mapGet (m : List (Url × Img)) (u : Url) : Option Img :=
  (m.find? (fun p => p.1 == u)).map Prod.snd

/-- JS `Map.set`: overwrite in place when present, append otherwise. -/
def mapSet (m : List (Url × Img)) (u : Url) (v : Img) : List (Url × Img) :=
  if m.any (fun p => p.1 == u) then
    m.map (fun p => if p.1 == u then (u, v) else p)
  else m ++ [(u, v)]

/-- JS `Map.delete`. -/
def mapDelete (m : List (Url × Img)) (u : Url) : List (Url × Img) :=
  m.filter (fun p => p.1 != u)

structure ImageCache where
  cache : List (Url × Img)
  order : List Url
  maxSize : Nat
deriving Repr, DecidableEq

/-- The process-wide cache starts empty with `_maxSize = 10`. -/
def ImageCache.empty : ImageCache :=
  ⟨[], [], 10⟩

/-- `ImageCache.get` (TextItem.js lines 19-31): on a hit, splice the url out
of `_order` (first occurrence, when present) and push it to the end, then
return the stored image; on a miss return `null` and touch nothing. -/
def ImageCache.get (c : ImageCache) (u : Url) : Option Img × ImageCache :=
  match mapGet c.cache u with
  | some img => (some img, ⟨c.cache, c.order.erase u ++ [u], c.maxSize⟩)
  | none => (none, c)

/-- The `while (this._order.length >= this._maxSize)` eviction loop of
`ImageCache.set` (TextItem.js lines 35-38).  Returns the remaining order,
the remaining map and the list of evicted urls in eviction order. -/
def evictAux (maxSize : Nat) :
    List Url → List (Url × Img) → List Url × List (Url × Img) × List Url
  | [], m => ([], m, [])
  | u :: rest, m =>
    if maxSize ≤ (u :: rest).length then
      let r := evictAux maxSize rest (mapDelete m u)
      (r.1, r.2.1, u :: r.2.2)
    else (u :: rest, m, [])

/-- `ImageCache.set` (TextItem.js lines 33-42), also reporting which urls
the eviction loop removed. -/
def ImageCache.setWithLog (c : ImageCache) (u : Url) (v : Img) :
    ImageCache × List Url :=
  let r := evictAux c.maxSize c.order c.cache
  (⟨mapSet r.2.1 u v, r.1 ++ [u], c.maxSize⟩, r.2.2)

/-- `ImageCache.set` (TextItem.js lines 33-42). -/
def ImageCache.set (c : ImageCache) (u : Url) (v : Img) : ImageCache :=
  (c.setWithLog u v).1

/-- `ImageCache.has` (TextItem.js lines 44-46). -/
def ImageCache.has (c : ImageCache) (u : Url) : Bool :=
  c.cache.any (fun p => p.1 == u)

/-! ### The C3 eviction scenario -/

/-- Insert `u ↦ u` for every url of the list, in order. -/
def fillCache (c : ImageCache) (us : List Url) : ImageCache :=
  us.foldl (fun c u => c.set u u) c

/-- Run a sequence of inserts collecting the eviction log of each insert. -/
def fillCacheLogged (c : ImageCache) (us : List Url) :
    ImageCache × List (List Url) :=
  us.foldl (fun acc u =>
    let r := acc.1.setWithLog u u
    (r.1, acc.2 ++ [r.2])) (c, [])

/-! ## Texture settings and fit calculators

`_fillImageSettings` / `_textureOptions` is a plain JS object; a key being
present (`hasOwnProperty`) is modelled by `Option.isSome`, truthiness of
the boolean keys by `Bool`.  The source key `rotation` is modelled by the
field `rotationDeg` (the source converts it from degrees to radians only
when calling the canvas API) and the source key `syncRatio` by the field
`syncRatioFlag`. -/

structure FillImageSettings where
  textWidth : Option ℚ := none
  textHeight : Option ℚ := none
  offsetLeft : Option ℚ := none
  offsetTop : Option ℚ := none
  syncRatioFlag : Bool := false
  scaling : Option ℚ := none
  scalingX : Option ℚ := none
  scalingY : Option ℚ := none
  leftPosition : Option ℚ := none
  topPosition : Option ℚ := none
  horizontalFlip : Bool := false
  verticalFlip : Bool := false
  rotationDeg : Option ℚ := none
deriving Repr, DecidableEq

/-- `Math.ceil` on a rational, back into ℚ. -/
def ceilQ (x : ℚ) : ℚ :=
  ((⌈x⌉ : ℤ) : ℚ)

/-- `Math.round` (JavaScript: floor of x + 1/2). -/
def jsRound (x : ℚ) : ℤ :=
  ⌊x + 1/2⌋

/-- The fitted texture placement: dimensions passed to `drawImage` and the
accumulated translation offset. -/
structure Fit where
  drawW : ℚ
  drawH : ℚ
  offX : ℚ
  offY : ℚ
deriving Repr, DecidableEq

/-- Baseline cover fit of the line-run adapter (PointText.js lines 190-203):
`widthImage = W`, `heightImage = W / r`; if `heightImage < H`, recompute
`heightImage = H`, `widthImage = H * r`. -/
def ptxBase (W H r : ℚ) : ℚ × ℚ :=
  if W / r < H then (H * r, H) else (W, W / r)

/-- Baseline fit of the region adapter (TextureFill.html compound-path
source lines 589-595): the recompute branch is guarded by
`bounds.height > bounds.width`, not by `heightImage < bounds.height`. -/
def cpdBase (W H r : ℚ) : ℚ × ℚ :=
  if W < H then (H * r, H) else (W, W / r)

/-- Fit computation of `PointText._draw` (src/src/text/PointText.js lines
187-247).  `W`/`H` are `bounds.width`/`bounds.height` of the glyph run,
`r` is `imageRatio = image.width / image.height`.
Then, only when settings are present and the baseline dimensions are
positive (line 205): explicit extents with `Math.ceil` (lines 209-217),
offsets (219-224), scaling (226-238) and the position nudge (241-246). -/
def pointTextFit (settings : Option FillImageSettings) (W H r : ℚ) : Fit :=
  let base := ptxBase W H r
  match settings with
  | none => ⟨base.1, base.2, 0, 0⟩
  | some s =>
    if 0 < base.1 ∧ 0 < base.2 then
      let ext :=
        match s.textWidth with
        | some tw =>
          let wa := ceilQ tw
          let ha := ceilQ (wa / r)
          (match s.textHeight with
           | some th => if ha < th then (ceilQ (th * r), ceilQ th) else (wa, ha)
           | none => (wa, ha))
        | none => base
      let ox0 : ℚ := match s.offsetLeft with | some ol => -ol | none => 0
      let oy0 : ℚ := match s.offsetTop with | some ot => -ot | none => 0
      let scaled :=
        if s.syncRatioFlag then
          match s.scaling with
          | some k => (ext.1 * k, ext.2 * k)
          | none => ext
        else
          ((match s.scalingX with | some kx => ext.1 * kx | none => ext.1),
           (match s.scalingY with | some ky => ext.2 * ky | none => ext.2))
      ⟨scaled.1, scaled.2,
        ox0 + (match s.leftPosition with | some lp => lp | none => 0),
        oy0 - (match s.topPosition with | some tp => tp | none => 0)⟩
    else ⟨base.1, base.2, 0, 0⟩

/-- Fit computation of `CompoundPath._draw` (TextureFill.html compound-path
source lines 587-617).  Baseline: `widthImage = W`, `heightImage = W / r`,
and if `H > W` (not `heightImage < H` as in PointText) recompute
`heightImage = H`, `widthImage = H * r`.  The region adapter has no
textWidth/textHeight and no offsetLeft/offsetTop handling; it applies
scaling and the leftPosition/topPosition nudge only. -/
def compoundFit (settings : Option FillImageSettings) (W H r : ℚ) : Fit :=
  let base := cpdBase W H r
  match settings with
  | none => ⟨base.1, base.2, 0, 0⟩
  | some s =>
    if 0 < base.1 ∧ 0 < base.2 then
      let scaled :=
        if s.syncRatioFlag then
          match s.scaling with
          | some k => (base.1 * k, base.2 * k)
          | none => base
        else
          ((match s.scalingX with | some kx => base.1 * kx | none => base.1),
           (match s.scalingY with | some ky => base.2 * ky | none => base.2))
      ⟨scaled.1, scaled.2,
        (match s.leftPosition with | some lp => lp | none => 0),
        -(match s.topPosition with | some tp => tp | none => 0)⟩
    else ⟨base.1, base.2, 0, 0⟩

/-! ## Texture transform operations -/

/-- One affine operation issued on the offscreen context.  `rotate` carries
the `rotation` setting in degrees; the source multiplies by π/180 only at
the `newCtx.rotate` call. -/
inductive TransformOp
  | translate (x y : ℚ)
  | scaleBy (x y : ℚ)
  | rotate (deg : ℚ)
deriving Repr, DecidableEq

/-- Transform operations issued after the fit, translated from
src/src/text/PointText.js lines 249-267 (identical in the compound-path
source, TextureFill.html lines 619-636): the offset translate is emitted
unconditionally, the flips and the rotation only when settings are present
and the fitted dimensions are positive. -/
def textureOps (settings : Option FillImageSettings) (w h ox oy : ℚ) :
    List TransformOp :=
  TransformOp.translate ox oy ::
    (match settings with
     | some s =>
       if 0 < w ∧ 0 < h then
         (if s.horizontalFlip then
            [TransformOp.translate w 0, TransformOp.scaleBy (-1) 1] else [])
         ++ (if s.verticalFlip then
            [TransformOp.translate 0 h, TransformOp.scaleBy 1 (-1)] else [])
         ++ (match s.rotationDeg with
             | some deg =>
               [TransformOp.translate (w/2) (h/2), TransformOp.rotate deg,
                TransformOp.translate (-(w/2)) (-(h/2))]
             | none => [])
       else []
     | none => [])

/-- The transform-op sequence as the specification words it (spec §4.3
step 6): translate(offsetX,offsetY), then the horizontal flip pair, then
the vertical flip pair, then the centered rotation triple. -/
def specTransformSeq (s : FillImageSettings) (w h ox oy : ℚ) :
    List TransformOp :=
  [TransformOp.translate ox oy]
  ++ (if s.horizontalFlip then
       [TransformOp.translate w 0, TransformOp.scaleBy (-1) 1] else [])
  ++ (if s.verticalFlip then
       [TransformOp.translate 0 h, TransformOp.scaleBy 1 (-1)] else [])
  ++ (match s.rotationDeg with
      | some deg =>
        [TransformOp.translate (w/2) (h/2), TransformOp.rotate deg,
         TransformOp.translate (-(w/2)) (-(h/2))]
      | none => [])

/-! ## Draw effect traces

To reason about resource handling we record the externally visible calls a
textured draw makes, in order: offscreen acquisition/release
(`CanvasProvider.getContext` / `CanvasProvider.release`), silhouette
fill/stroke on the offscreen context, the texture `drawImage`, the
blit of the offscreen canvas back onto the main context, and the flat
fill/stroke drawn directly on the main context. -/

inductive Eff
  | acquire (w h : ℚ)
  | release
  | offscreenFill
  | offscreenStroke
  | drawTexture (w h : ℚ)
  | blit
  | flatFill
  | flatStroke
deriving Repr, DecidableEq

/-- Effect trace of `CompoundPath._draw` (TextureFill.html compound-path
source lines 503-651).  `textured` is `this._fillImage` being set.  The
flat branch runs only when `!param.clip && !this._fillImage`.  The textured
branch computes trial canvas dimensions (lines 528-532), returns early when
either rounds to ≤ 0 (lines 534-536), then acquires an offscreen context of
`bounds` inflated by 100 (lines 540-542), renders the silhouette fill,
switches to source-in compositing, draws the texture only when the fit and
the bounds height are positive (lines 639-641), re-strokes, and blits the
offscreen canvas back (line 649).  No release happens outside the disabled
DEBUG block. -/
def compoundDrawEffects (hasChildren clip textured hasFill hasStroke : Bool)
    (settings : Option FillImageSettings) (W H r : ℚ) : List Eff :=
  if !hasChildren then []
  else
    (if !clip && !textured then
       (if hasFill then [Eff.flatFill] else [])
       ++ (if hasStroke then [Eff.flatStroke] else [])
     else [])
    ++
    (if textured then
       let sc := max 5 (W / 50)
       let cw0 := jsRound (W * sc)
       let ch0 := jsRound (H * sc * (3/2))
       if cw0 ≤ 0 ∨ ch0 ≤ 0 then []
       else
         let f := compoundFit settings W H r
         Eff.acquire (W + 100) (H + 100) ::
           ((if hasFill then [Eff.offscreenFill] else [])
            ++ (if 0 < f.drawW ∧ 0 < f.drawH ∧ 0 < H then
                  [Eff.drawTexture f.drawW f.drawH] else [])
            ++ (if hasStroke then [Eff.offscreenStroke] else [])
            ++ [Eff.blit])
     else [])

/-- Effect trace of one line of `PointText._draw` (src/src/text/PointText.js
lines 92-306).  The untextured branch (lines 97-105) paints the flat fill
and stroke directly.  The textured branch computes
`scaling = ceil(max(5, W/50))`, canvas dimensions with a 10·scaling slack
(lines 163-166), skips the line when either is ≤ 0 (lines 168-171), then
acquires the offscreen context, renders the glyph fill, and only when the
fit and the bounds height are positive (line 271) draws the texture, blits
back and releases the context (line 301); on the degenerate-fit path the
acquired context is not released. -/
def pointTextLineEffects (textured hasFill hasStroke : Bool)
    (settings : Option FillImageSettings) (W H r : ℚ) : List Eff :=
  if !textured then
    (if hasFill then [Eff.flatFill] else [])
    ++ (if hasStroke then [Eff.flatStroke] else [])
  else
    let sc : ℤ := ⌈max 5 (W / 50)⌉
    let cw := jsRound (W * (sc : ℚ) + 10 * (sc : ℚ))
    let ch := jsRound (H * (sc : ℚ) * (3/2))
    if cw ≤ 0 ∨ ch ≤ 0 then []
    else
      let f := pointTextFit settings W H r
      Eff.acquire (cw : ℚ) (ch : ℚ) ::
        ((if hasFill then [Eff.offscreenFill] else [])
         ++ (if 0 < f.drawW ∧ 0 < f.drawH ∧ 0 < H then
               [Eff.drawTexture f.drawW f.drawH, Eff.blit, Eff.release]
             else []))

/-! ## Shape state and the asynchronous texture loader

`TextItem.setTextureFill` (src/src/text/TextItem.js lines 151-204) and the
identical `CompoundPath.setFillImage` (TextureFill.html lines 251-302).
An `Image` created for url `u` is identified by `u` itself; `pending`
holds the urls of in-flight loads in creation order, and `fireLoad`
models the DOM `load` event of such an image firing. -/

structure ShapeState where
  textureFillUrl : Option Url := none
  textureFill : Option Img := none
  loaded : Bool := false
  styleChanged : Nat := 0
  loadEvents : Nat := 0
deriving Repr, DecidableEq

structure LoaderWorld where
  shape : ShapeState
  cache : ImageCache
  pending : List Url
deriving Repr, DecidableEq

def LoaderWorld.init : LoaderWorld :=
  ⟨{}, ImageCache.empty, []⟩

/-- `setTextureFill` (TextItem.js lines 151-204).  A falsy url clears the
bound resource only when one is bound (lines 154-158) and stores the url
(line 160).  A truthy url is a synchronous bind on a cache hit (lines
173-181); on a miss a fresh `Image` is created whose load has not completed
(`image.complete` is false for a fresh network load, line 187), the load
handler is registered and a style change is signalled (line 202).  The
handler itself (lines 190-198) performs no comparison of the resolved url
against `_textureFillUrl`. -/
def setTextureFill (w : LoaderWorld) (url : Option Url) : LoaderWorld :=
  match url with
  | none =>
    let s := w.shape
    let s1 :=
      if s.textureFill.isSome then
        ⟨s.textureFillUrl, none, true, s.styleChanged + 1, s.loadEvents⟩
      else s
    ⟨⟨none, s1.textureFill, s1.loaded, s1.styleChanged, s1.loadEvents⟩,
     w.cache, w.pending⟩
  | some u =>
    let s := w.shape
    let hit := w.cache.get u
    match hit.1 with
    | some img =>
      ⟨⟨some u, some img, true, s.styleChanged + 1, s.loadEvents + 1⟩,
       hit.2, w.pending⟩
    | none =>
      ⟨⟨some u, s.textureFill, false, s.styleChanged + 1, s.loadEvents⟩,
       hit.2, w.pending ++ [u]⟩

/-- The DOM `load` handler of the pending image created for `u`
(TextItem.js lines 190-198): bind the image, insert it into the cache,
mark loaded, signal the style change and emit the load event —
unconditionally, with no check of the shape's current desired url. -/
def fireLoad (w : LoaderWorld) (u : Url) : LoaderWorld :=
  if u ∈ w.pending then
    ⟨⟨w.shape.textureFillUrl, some u, true, w.shape.styleChanged + 1,
      w.shape.loadEvents + 1⟩,
     w.cache.set u u, w.pending.erase u⟩
  else w

/-! ## Cache operation sequences (claim C4) -/

inductive CacheOp
  | get (u : Url)
  | set (u : Url) (img : Img)
  | has (u : Url)

def applyOp (c : ImageCache) : CacheOp → ImageCache
  | CacheOp.get u => (c.get u).2
  | CacheOp.set u img => c.set u img
  | CacheOp.has _ => c

def runOps (ops : List CacheOp) : ImageCache :=
  ops.foldl applyOp ImageCache.empty

/-- The inductive invariant of the cache: unique keys, every resident key
present in the recency order, and the order bounded by the capacity 10. -/
def CacheInv (c : ImageCache) : Prop :=
  (keysOf c.cache).Nodup ∧ (∀ k ∈ keysOf c.cache, k ∈ c.order)
  ∧ c.order.length ≤ c.maxSize ∧ c.maxSize = 10

/-- The scaling step of the settings block leaves the dimensions unchanged:
either the key is absent or its value is 1. -/
def neutralScaleOnly (s : FillImageSettings) : Prop :=
  (s.syncRatioFlag = true → s.scaling = none ∨ s.scaling = some 1)
  ∧ (s.syncRatioFlag = false →
      (s.scalingX = none ∨ s.scalingX = some 1)
      ∧ (s.scalingY = none ∨ s.scalingY = some 1))

/-- No explicit textWidth/textHeight extents and scaling 1 (the scope of
claim C1). -/
def neutralFit : Option FillImageSettings → Prop
  | none => True
  | some s => s.textWidth = none ∧ s.textHeight = none ∧ neutralScaleOnly s

/-- The degenerate-fit condition of the spec: `drawW ≤ 0` or `drawH ≤ 0` or
the silhouette bounding-box height ≤ 0. -/
def degenerateFit (f : Fit) (H : ℚ) : Prop :=
  f.drawW ≤ 0 ∨ f.drawH ≤ 0 ∨ H ≤ 0

/-- No `drawImage` of the texture bitmap occurs in the trace. -/
def noTextureDraw (es : List Eff) : Prop :=
  ∀ w h : ℚ, Eff.drawTexture w h ∉ es

/-- Every offscreen acquisition in the trace has positive dimensions. -/
def acquiresPositive (es : List Eff) : Prop :=
  ∀ w h : ℚ, Eff.acquire w h ∈ es → 0 < w ∧ 0 < h

lemma ceilQ_eval {x : ℚ} {n : ℤ} (h : ⌈x⌉ = n) : ceilQ x = (n : ℚ) := by
  unfold ceilQ
  rw [h]

lemma jsRound_eval {x : ℚ} {n : ℤ} (h1 : (n:ℚ) ≤ x + 1/2)
    (h2 : x + 1/2 < n + 1) : jsRound x = n := by
  unfold jsRound
  exact Int.floor_eq_iff.mpr ⟨h1, by exact_mod_cast h2⟩

lemma mem_keysOf_of_mapGet_some {m : List (Url × Img)} {u : Url} {img : Img}
    (h : mapGet m u = some img) : u ∈ keysOf m := by
  unfold mapGet at h
  rcases Option.map_eq_some'.mp h with ⟨p, hp, _⟩
  have hmem := List.mem_of_find?_eq_some hp
  have hbeq : p.1 = u := by simpa using List.find?_some hp
  exact hbeq ▸ List.mem_map_of_mem Prod.fst hmem

lemma mapGet_eq_none_of_any_false {m : List (Url × Img)} {u : Url}
    (h : m.any (fun p => p.1 == u) = false) : mapGet m u = none := by
  unfold mapGet
  rw [Option.map_eq_none']
  rw [List.find?_eq_none]
  intro x hx hbx
  have : m.any (fun p => p.1 == u) = true := List.any_eq_true.mpr ⟨x, hx, hbx⟩
  simp [this] at h

lemma evictAux_nil (maxSize : Nat) (m : List (Url × Img)) :
    evictAux maxSize [] m = ([], m, []) := rfl

lemma evictAux_cons_evict {maxSize : Nat} {u : Url} {rest : List Url}
    (m : List (Url × Img)) (hc : maxSize ≤ rest.length + 1) :
    evictAux maxSize (u :: rest) m =
      ((evictAux maxSize rest (mapDelete m u)).1,
       (evictAux maxSize rest (mapDelete m u)).2.1,
       u :: (evictAux maxSize rest (mapDelete m u)).2.2) := by
  simp [evictAux, hc]

lemma evictAux_cons_stop {maxSize : Nat} {u : Url} {rest : List Url}
    (m : List (Url × Img)) (hc : ¬ maxSize ≤ rest.length + 1) :
    evictAux maxSize (u :: rest) m = (u :: rest, m, []) := by
  simp [evictAux, hc]

lemma evictAux_order_length {maxSize : Nat} (hpos : 0 < maxSize) :
    ∀ (o : List Url) (m : List (Url × Img)),
      (evictAux maxSize o m).1.length < maxSize := by
  intro o
  induction o with
  | nil => intro m; simpa [evictAux_nil] using hpos
  | cons u rest ih =>
    intro m
    by_cases hc : maxSize ≤ rest.length + 1
    · rw [evictAux_cons_evict m hc]
      exact ih (mapDelete m u)
    · rw [evictAux_cons_stop m hc]
      simpa using Nat.lt_of_not_le hc

lemma evictAux_map_sublist (maxSize : Nat) :
    ∀ (o : List Url) (m : List (Url × Img)),
      List.Sublist (evictAux maxSize o m).2.1 m := by
  intro o
  induction o with
  | nil => intro m; rw [evictAux_nil]
  | cons u rest ih =>
    intro m
    by_cases hc : maxSize ≤ rest.length + 1
    · rw [evictAux_cons_evict m hc]
      have h1 := ih (mapDelete m u)
      have h2 : List.Sublist (mapDelete m u) m := List.filter_sublist m
      exact h1.trans h2
    · rw [evictAux_cons_stop m hc]

lemma mem_keysOf_mapDelete {m : List (Url × Img)} {u k : Url}
    (h : k ∈ keysOf (mapDelete m u)) : k ∈ keysOf m ∧ k ≠ u := by
  unfold keysOf mapDelete at h
  rcases List.mem_map.mp h with ⟨p, hp, rfl⟩
  rcases List.mem_filter.mp hp with ⟨hpm, hbp⟩
  exact ⟨List.mem_map_of_mem _ hpm, by simpa using hbp⟩

lemma evictAux_keys_subset {maxSize : Nat} :
    ∀ (o : List Url) (m : List (Url × Img)),
      (∀ k ∈ keysOf m, k ∈ o) →
      ∀ k ∈ keysOf (evictAux maxSize o m).2.1, k ∈ (evictAux maxSize o m).1 := by
  intro o
  induction o with
  | nil =>
    intro m h k hk
    rw [evictAux_nil] at hk ⊢
    exact h k hk
  | cons u rest ih =>
    intro m h k hk
    by_cases hc : maxSize ≤ rest.length + 1
    · rw [evictAux_cons_evict m hc] at hk ⊢
      refine ih (mapDelete m u) ?_ k hk
      intro k' hk'
      rcases mem_keysOf_mapDelete hk' with ⟨hkm, hne⟩
      rcases List.mem_cons.mp (h k' hkm) with h' | h'
      · exact absurd h' hne
      · exact h'
    · rw [evictAux_cons_stop m hc] at hk ⊢
      exact h k hk

lemma keysOf_mapSet_of_any {m : List (Url × Img)} {u : Url} (v : Img)
    (h : m.any (fun p => p.1 == u) = true) :
    keysOf (mapSet m u v) = keysOf m := by
  unfold mapSet keysOf
  rw [if_pos h, List.map_map]
  apply List.map_congr_left
  intro p _
  by_cases hpu : p.1 = u
  · simp [Function.comp, hpu]
  · simp [Function.comp, hpu]

lemma keysOf_mapSet_of_any_false {m : List (Url × Img)} {u : Url} (v : Img)
    (h : m.any (fun p => p.1 == u) = false) :
    keysOf (mapSet m u v) = keysOf m ++ [u] := by
  unfold mapSet keysOf
  rw [if_neg (by simp [h])]
  simp

lemma not_mem_keysOf_of_any_false {m : List (Url × Img)} {u : Url}
    (h : m.any (fun p => p.1 == u) = false) : u ∉ keysOf m := by
  intro hu
  rcases List.mem_map.mp hu with ⟨p, hp, hfst⟩
  have : m.any (fun p => p.1 == u) = true :=
    List.any_eq_true.mpr ⟨p, hp, by simp [hfst]⟩
  simp [this] at h

lemma cacheInv_applyOp {c : ImageCache} (h : CacheInv c) (op : CacheOp) :
    CacheInv (applyOp c op) := by
  obtain ⟨hnd, hsub, hlen, hmax⟩ := h
  cases op with
  | has u => exact ⟨hnd, hsub, hlen, hmax⟩
  | get u =>
    cases hg : mapGet c.cache u with
    | none =>
      simp only [applyOp, ImageCache.get, hg]
      exact ⟨hnd, hsub, hlen, hmax⟩
    | some img =>
      have hu : u ∈ keysOf c.cache := mem_keysOf_of_mapGet_some hg
      have huo : u ∈ c.order := hsub u hu
      simp only [applyOp, ImageCache.get, hg]
      refine ⟨hnd, ?_, ?_, hmax⟩
      · intro k hk
        by_cases hku : k = u
        · subst hku; simp
        · have hko := hsub k hk
          have hmem : k ∈ c.order.erase u := (List.mem_erase_of_ne hku).mpr hko
          simp [hmem]
      · have hlo : (c.order.erase u).length = c.order.length - 1 :=
          List.length_erase_of_mem huo
        have hposo : 0 < c.order.length :=
          List.length_pos.mpr (List.ne_nil_of_mem huo)
        simp only [List.length_append, hlo, List.length_singleton]
        omega
  | set u img =>
    have hposmax : 0 < c.maxSize := by omega
    have hnd' : (keysOf (evictAux c.maxSize c.order c.cache).2.1).Nodup :=
      ((evictAux_map_sublist c.maxSize c.order c.cache).map Prod.fst).nodup hnd
    have hkeys' := @evictAux_keys_subset c.maxSize c.order c.cache hsub
    have hlen' := evictAux_order_length hposmax c.order c.cache
    simp only [applyOp, ImageCache.set, ImageCache.setWithLog]
    by_cases hany : (evictAux c.maxSize c.order c.cache).2.1.any
        (fun p => p.1 == u) = true
    · refine ⟨?_, ?_, ?_, hmax⟩
      · rw [keysOf_mapSet_of_any img hany]; exact hnd'
      · intro k hk
        rw [keysOf_mapSet_of_any img hany] at hk
        exact List.mem_append_left _ (hkeys' k hk)
      · simp only [List.length_append, List.length_singleton]
        omega
    · have hany' : (evictAux c.maxSize c.order c.cache).2.1.any
          (fun p => p.1 == u) = false := by
        cases hx : (evictAux c.maxSize c.order c.cache).2.1.any
            (fun p => p.1 == u) with
        | true => exact absurd hx hany
        | false => rfl
      refine ⟨?_, ?_, ?_, hmax⟩
      · rw [keysOf_mapSet_of_any_false img hany']
        rw [List.nodup_append]
        refine ⟨hnd', List.nodup_singleton u, ?_⟩
        intro a ha hau
        rw [List.mem_singleton] at hau
        subst hau
        exact not_mem_keysOf_of_any_false hany' ha
      · intro k hk
        rw [keysOf_mapSet_of_any_false img hany'] at hk
        rcases List.mem_append.mp hk with hk' | hk'
        · exact List.mem_append_left _ (hkeys' k hk')
        · exact List.mem_append_right _ hk'
      · simp only [List.length_append, List.length_singleton]
        omega

lemma cacheInv_runOps (ops : List CacheOp) : CacheInv (runOps ops) := by
  unfold runOps
  have hbase : CacheInv ImageCache.empty := by
    refine ⟨List.nodup_nil, ?_, ?_, rfl⟩
    · intro k hk; simp [ImageCache.empty, keysOf] at hk
    · simp [ImageCache.empty]
  generalize ImageCache.empty = c at hbase ⊢
  induction ops generalizing c with
  | nil => simpa using hbase
  | cons op rest ih =>
    simp only [List.foldl_cons]
    exact ih _ (cacheInv_applyOp hbase op)

/-! ## Fit calculator lemmas -/

lemma ptxBase_pos {W H r : ℚ} (hW : 0 < W) (hH : 0 < H) (hr : 0 < r) :
    0 < (ptxBase W H r).1 ∧ 0 < (ptxBase W H r).2 := by
  by_cases hc : W / r < H
  · simp only [ptxBase, if_pos hc]
    exact ⟨mul_pos hH hr, hH⟩
  · simp only [ptxBase, if_neg hc]
    exact ⟨hW, div_pos hW hr⟩

lemma ptxBase_cover {W H r : ℚ} (hW : 0 < W) (hH : 0 < H) (hr : 0 < r) :
    W ≤ (ptxBase W H r).1 ∧ H ≤ (ptxBase W H r).2 := by
  by_cases hc : W / r < H
  · simp only [ptxBase, if_pos hc]
    exact ⟨le_of_lt ((div_lt_iff₀ hr).mp hc), le_refl H⟩
  · simp only [ptxBase, if_neg hc]
    exact ⟨le_refl W, le_of_not_lt hc⟩

/-- With no explicit extents and neutral scaling, the line-run fit keeps the
baseline cover dimensions, whatever the offsets do. -/
lemma pointTextFit_dims_neutral (settings : Option FillImageSettings)
    (W H r : ℚ) (hn : neutralFit settings) :
    (pointTextFit settings W H r).drawW = (ptxBase W H r).1
    ∧ (pointTextFit settings W H r).drawH = (ptxBase W H r).2 := by
  cases settings with
  | none => exact ⟨rfl, rfl⟩
  | some s =>
    obtain ⟨tw0, th0, ol, ot, sync, sc, scx, scy, lp, tp, hf, vf, rot⟩ := s
    obtain ⟨htw, hth, hsync, hnosync⟩ := hn
    dsimp only at htw hth hsync hnosync
    subst htw hth
    cases sync with
    | true =>
      rcases hsync rfl with h | h <;> subst h <;>
        simp only [pointTextFit] <;> split <;> simp
    | false =>
      obtain ⟨hx, hy⟩ := hnosync rfl
      rcases hx with hx | hx <;> rcases hy with hy | hy <;>
        subst hx <;> subst hy <;>
          simp only [pointTextFit] <;> split <;> simp

/-! ## Effect trace lemmas -/

lemma half_le_of_jsRound_pos {x : ℚ} (h : 0 < jsRound x) : 1/2 ≤ x := by
  unfold jsRound at h
  have h1 : (1:ℤ) ≤ ⌊x + 1/2⌋ := h
  have h2 : ((1:ℤ):ℚ) ≤ x + 1/2 := Int.le_floor.mp h1
  push_cast at h2
  linarith

lemma pos_W_of_jsRound_canvas {W : ℚ}
    (h : 0 < jsRound (W * max 5 (W / 50))) : 0 < W := by
  have h2 := half_le_of_jsRound_pos h
  by_contra hW
  push_neg at hW
  have hs : (0:ℚ) ≤ max 5 (W / 50) :=
    le_trans (by norm_num) (le_max_left 5 (W / 50))
  have hprod : W * max 5 (W / 50) ≤ 0 :=
    mul_nonpos_iff.mpr (Or.inr ⟨hW, hs⟩)
  linarith

lemma pos_H_of_jsRound_canvas {H s : ℚ} (hs : 0 ≤ s)
    (h : 0 < jsRound (H * s * (3/2))) : 0 < H := by
  have h2 := half_le_of_jsRound_pos h
  by_contra hH
  push_neg at hH
  have h3 : H * s ≤ 0 := mul_nonpos_iff.mpr (Or.inr ⟨hH, hs⟩)
  have h4 : H * s * (3/2) ≤ 0 := mul_nonpos_iff.mpr (Or.inr ⟨h3, by norm_num⟩)
  linarith

/-- A texture `drawImage` occurs in the region adapter's trace only when
the fit and the bounds height are positive. -/
lemma drawTexture_mem_compound {hasChildren clip hasFill hasStroke : Bool}
    {s : Option FillImageSettings} {W H r w h : ℚ}
    (hmem : Eff.drawTexture w h ∈
      compoundDrawEffects hasChildren clip true hasFill hasStroke s W H r) :
    0 < (compoundFit s W H r).drawW ∧ 0 < (compoundFit s W H r).drawH
    ∧ 0 < H := by
  by_cases hg : 0 < (compoundFit s W H r).drawW
      ∧ 0 < (compoundFit s W H r).drawH ∧ 0 < H
  · exact hg
  · exfalso
    by_cases hearly : jsRound (W * max 5 (W / 50)) ≤ 0
        ∨ jsRound (H * max 5 (W / 50) * (3/2)) ≤ 0 <;>
      cases hasChildren <;> cases clip <;> cases hasFill <;>
        cases hasStroke <;>
          simp [compoundDrawEffects, hg, hearly] at hmem

/-- A texture `drawImage` occurs in the line-run adapter's trace only when
the fit and the bounds height are positive. -/
lemma drawTexture_mem_pointText {hasFill hasStroke : Bool}
    {s : Option FillImageSettings} {W H r w h : ℚ}
    (hmem : Eff.drawTexture w h ∈
      pointTextLineEffects true hasFill hasStroke s W H r) :
    0 < (pointTextFit s W H r).drawW ∧ 0 < (pointTextFit s W H r).drawH
    ∧ 0 < H := by
  by_cases hg : 0 < (pointTextFit s W H r).drawW
      ∧ 0 < (pointTextFit s W H r).drawH ∧ 0 < H
  · exact hg
  · exfalso
    by_cases hearly : jsRound (W * ((⌈max 5 (W / 50)⌉:ℤ):ℚ)
          + 10 * ((⌈max 5 (W / 50)⌉:ℤ):ℚ)) ≤ 0
        ∨ jsRound (H * ((⌈max 5 (W / 50)⌉:ℤ):ℚ) * (3/2)) ≤ 0 <;>
      cases hasFill <;> cases hasStroke <;>
        simp [pointTextLineEffects, hg, hearly] at hmem

/-- Every offscreen acquisition of the region adapter's textured trace has
positive dimensions. -/
lemma acquire_pos_compound {hasChildren clip hasFill hasStroke : Bool}
    {s : Option FillImageSettings} {W H r w h : ℚ}
    (hmem : Eff.acquire w h ∈
      compoundDrawEffects hasChildren clip true hasFill hasStroke s W H r) :
    0 < w ∧ 0 < h := by
  by_cases hearly : jsRound (W * max 5 (W / 50)) ≤ 0
      ∨ jsRound (H * max 5 (W / 50) * (3/2)) ≤ 0
  · exfalso
    cases hasChildren <;> cases clip <;> cases hasFill <;> cases hasStroke <;>
      simp [compoundDrawEffects, hearly] at hmem
  · have hcw : 0 < jsRound (W * max 5 (W / 50)) := by
      by_contra hc
      exact hearly (Or.inl (not_lt.mp hc))
    have hch : 0 < jsRound (H * max 5 (W / 50) * (3/2)) := by
      by_contra hc
      exact hearly (Or.inr (not_lt.mp hc))
    have hsmax : (0:ℚ) ≤ max 5 (W / 50) :=
      le_trans (by norm_num) (le_max_left 5 (W / 50))
    have hW : 0 < W := pos_W_of_jsRound_canvas hcw
    have hH : 0 < H := pos_H_of_jsRound_canvas hsmax hch
    cases hasChildren <;> cases clip <;> cases hasFill <;> cases hasStroke <;>
      by_cases hg : 0 < (compoundFit s W H r).drawW
          ∧ 0 < (compoundFit s W H r).drawH ∧ 0 < H <;>
        simp [compoundDrawEffects, hearly, hg] at hmem <;>
        (obtain ⟨rfl, rfl⟩ := hmem
         exact ⟨by linarith, by linarith⟩)

/-- Every offscreen acquisition of the line-run adapter's textured trace
has positive dimensions. -/
lemma acquire_pos_pointText {hasFill hasStroke : Bool}
    {s : Option FillImageSettings} {W H r w h : ℚ}
    (hmem : Eff.acquire w h ∈
      pointTextLineEffects true hasFill hasStroke s W H r) :
    0 < w ∧ 0 < h := by
  by_cases hearly : jsRound (W * ((⌈max 5 (W / 50)⌉:ℤ):ℚ)
        + 10 * ((⌈max 5 (W / 50)⌉:ℤ):ℚ)) ≤ 0
      ∨ jsRound (H * ((⌈max 5 (W / 50)⌉:ℤ):ℚ) * (3/2)) ≤ 0
  · exfalso
    cases hasFill <;> cases hasStroke <;>
      simp [pointTextLineEffects, hearly] at hmem
  · have hcw : 0 < jsRound (W * ((⌈max 5 (W / 50)⌉:ℤ):ℚ)
        + 10 * ((⌈max 5 (W / 50)⌉:ℤ):ℚ)) := by
      by_contra hc
      exact hearly (Or.inl (not_lt.mp hc))
    have hch : 0 < jsRound (H * ((⌈max 5 (W / 50)⌉:ℤ):ℚ) * (3/2)) := by
      by_contra hc
      exact hearly (Or.inr (not_lt.mp hc))
    cases hasFill <;> cases hasStroke <;>
      by_cases hg : 0 < (pointTextFit s W H r).drawW
          ∧ 0 < (pointTextFit s W H r).drawH ∧ 0 < H <;>
        simp [pointTextLineEffects, hearly, hg] at hmem <;>
        (obtain ⟨rfl, rfl⟩ := hmem
         exact ⟨by exact_mod_cast hcw, by exact_mod_cast hch⟩)

/-! ## Claim theorems -/

/-- Claim C1 (amended): for every target box with `W > 0`, `H > 0` and
every image aspect ratio `r > 0`, with no explicit textWidth/textHeight
extents and scaling 1, the fitted texture dimensions satisfy `drawW ≥ W`
and `drawH ≥ H` in the line-run (point-text) adapter.  In the region
(compound-path) adapter the recompute is guarded by `H > W` instead of
`drawH < H`, so the cover property fails there (see the
counterexample). -/
theorem c1_cover_line_run_adapter (settings : Option FillImageSettings)
    (W H r : ℚ) (hW : 0 < W) (hH : 0 < H) (hr : 0 < r)
    (hn : neutralFit settings) :
    W ≤ (pointTextFit settings W H r).drawW
    ∧ H ≤ (pointTextFit settings W H r).drawH := by
  obtain ⟨h1, h2⟩ := pointTextFit_dims_neutral settings W H r hn
  obtain ⟨hc1, hc2⟩ := ptxBase_cover hW hH hr
  rw [h1, h2]
  exact ⟨hc1, hc2⟩

/-- Witness for C1 at the spec's own determinism example: `W=100`, `H=50`,
`r=2`, no settings. -/
theorem c1_cover_line_run_adapter_witness :
    (0:ℚ) < 100 ∧ (0:ℚ) < 50 ∧ (0:ℚ) < 2
    ∧ (100:ℚ) ≤ (pointTextFit none 100 50 2).drawW
    ∧ (50:ℚ) ≤ (pointTextFit none 100 50 2).drawH :=
  ⟨by norm_num, by norm_num, by norm_num,
   (c1_cover_line_run_adapter none 100 50 2 (by norm_num) (by norm_num)
      (by norm_num) trivial).1,
   (c1_cover_line_run_adapter none 100 50 2 (by norm_num) (by norm_num)
      (by norm_num) trivial).2⟩

/-- Counterexample to C1 as stated: in the region (compound-path) adapter,
with `W = 100 > 0`, `H = 50 > 0`, `r = 4 > 0` and no settings, the fitted
height is 25, strictly below the box height 50 — the texture letterboxes
instead of covering. -/
theorem c1_region_adapter_counterexample :
    (0:ℚ) < 100 ∧ (0:ℚ) < 50 ∧ (0:ℚ) < 4
    ∧ (compoundFit none 100 50 4).drawH = 25
    ∧ ¬ ((50:ℚ) ≤ (compoundFit none 100 50 4).drawH) := by
  refine ⟨by norm_num, by norm_num, by norm_num, ?_, ?_⟩
  · show (cpdBase 100 50 4).2 = 25
    norm_num [cpdBase]
  · show ¬ ((50:ℚ) ≤ (cpdBase 100 50 4).2)
    norm_num [cpdBase]

/-- Claim C6 (amended): in the line-run adapter (src/src/text/PointText.js
lines 205-217) the explicit-extent fit applies `Math.ceil` at every step:
when `textWidth` is given, `drawW = ⌈textWidth⌉` and `drawH = ⌈drawW / r⌉`;
when `textHeight` is also given and that `drawH < textHeight`, the fit is
recomputed as `drawH = ⌈textHeight⌉`, `drawW = ⌈textHeight * r⌉`.  (The
claim's exact formulas `drawW = textWidth`, `drawH = drawW / r` fail on
non-integer intermediate values; see the counterexample.) -/
theorem c6_extents_ceil (s : FillImageSettings) (W H r tw : ℚ)
    (hW : 0 < W) (hH : 0 < H) (hr : 0 < r)
    (htw : s.textWidth = some tw) (hns : neutralScaleOnly s) :
    ((pointTextFit (some s) W H r).drawW, (pointTextFit (some s) W H r).drawH)
      = match s.textHeight with
        | some th =>
          if ceilQ (ceilQ tw / r) < th then (ceilQ (th * r), ceilQ th)
          else (ceilQ tw, ceilQ (ceilQ tw / r))
        | none => (ceilQ tw, ceilQ (ceilQ tw / r)) := by
  obtain ⟨hp1, hp2⟩ := ptxBase_pos hW hH hr
  obtain ⟨tw0, th0, ol, ot, sync, sc, scx, scy, lp, tp, hf, vf, rot⟩ := s
  obtain ⟨hsync, hnosync⟩ := hns
  dsimp only at htw hsync hnosync ⊢
  subst htw
  cases sync with
  | true =>
    rcases hsync rfl with h | h <;> subst h <;> cases th0 <;>
      simp only [pointTextFit, hp1, hp2, and_self, if_true, mul_one] <;>
      first
      | rfl
      | (split <;> rfl)
  | false =>
    obtain ⟨hx, hy⟩ := hnosync rfl
    rcases hx with hx | hx <;> rcases hy with hy | hy <;>
      subst hx <;> subst hy <;> cases th0 <;>
        simp only [pointTextFit, hp1, hp2, and_self, if_true, mul_one] <;>
        first
        | rfl
        | (split <;> rfl)

/-- Witness for C6 at a concrete input: settings with `textWidth = 10` and
`textHeight = 20`, box 1×1, ratio 3; the amended formulas give
`drawH = ⌈20⌉ = 20`, `drawW = ⌈20·3⌉ = 60`. -/
theorem c6_extents_ceil_witness :
    ((pointTextFit (some { textWidth := some 10, textHeight := some 20 })
        1 1 3).drawW,
     (pointTextFit (some { textWidth := some 10, textHeight := some 20 })
        1 1 3).drawH) = (60, 20) := by
  have hns : neutralScaleOnly
      { textWidth := some 10, textHeight := some 20 } := by
    constructor
    · intro hc; cases hc
    · intro _; exact ⟨Or.inl rfl, Or.inl rfl⟩
  have h := c6_extents_ceil { textWidth := some 10, textHeight := some 20 }
    1 1 3 10 (by norm_num) (by norm_num) (by norm_num) rfl hns
  rw [h]
  have e1 : ceilQ (10:ℚ) = ((10:ℤ):ℚ) := ceilQ_eval (by norm_num)
  have e2 : ceilQ (((10:ℤ):ℚ) / 3) = ((4:ℤ):ℚ) := by
    refine ceilQ_eval ?_
    rw [Int.ceil_eq_iff]
    constructor <;> norm_num
  show (if ceilQ (ceilQ 10 / 3) < 20 then ((ceilQ (20 * 3), ceilQ 20) : ℚ × ℚ)
        else (ceilQ 10, ceilQ (ceilQ 10 / 3))) = (60, 20)
  rw [e1, e2]
  rw [if_pos (by norm_num)]
  have e3 : ceilQ ((20:ℚ) * 3) = ((60:ℤ):ℚ) := ceilQ_eval (by norm_num)
  have e4 : ceilQ (20:ℚ) = ((20:ℤ):ℚ) := ceilQ_eval (by norm_num)
  rw [e3, e4]
  norm_num

/-- Counterexample to C6 as stated: with `textWidth = 10` and aspect ratio
`r = 3`, the code computes `drawH = ⌈10/3⌉ = 4`, but the claim's formula
`drawH = drawW / r` demands `10/3`. -/
theorem c6_counterexample :
    (pointTextFit (some { textWidth := some 10 }) 1 1 3).drawW = 10
    ∧ (pointTextFit (some { textWidth := some 10 }) 1 1 3).drawH = 4
    ∧ (pointTextFit (some { textWidth := some 10 }) 1 1 3).drawH
        ≠ (pointTextFit (some { textWidth := some 10 }) 1 1 3).drawW / 3 := by
  have e1 : ceilQ (10:ℚ) = ((10:ℤ):ℚ) := ceilQ_eval (by norm_num)
  have e2 : ceilQ (((10:ℤ):ℚ) / 3) = ((4:ℤ):ℚ) := by
    refine ceilQ_eval ?_
    rw [Int.ceil_eq_iff]
    constructor <;> norm_num
  refine ⟨?_, ?_, ?_⟩ <;>
    · norm_num [pointTextFit, ptxBase]
      simp only [e1, e2]
      norm_num

/-- Claim C3: with capacity 10, inserting the distinct urls u0..u9 fills
the cache; `get(u0)` refreshes u0's recency; then inserting u10..u18 leaves
u0 resident, evicts exactly u1..u9 in that order — one eviction per
insert — and leaves u10..u18 resident. -/
theorem c3_lru_eviction :
    (fillCache ImageCache.empty (List.range 10)).cache.length = 10
    ∧ ((List.range 10).all
        (fun u => (fillCache ImageCache.empty (List.range 10)).has u)) = true
    ∧ (fillCacheLogged ((fillCache ImageCache.empty (List.range 10)).get 0).2
        ((List.range 9).map (fun n => n + 10))).2
        = [[1], [2], [3], [4], [5], [6], [7], [8], [9]]
    ∧ (fillCacheLogged ((fillCache ImageCache.empty (List.range 10)).get 0).2
        ((List.range 9).map (fun n => n + 10))).1.has 0 = true
    ∧ ((List.range 9).map (fun n => n + 1)).all
        (fun u => !(fillCacheLogged
            ((fillCache ImageCache.empty (List.range 10)).get 0).2
            ((List.range 9).map (fun n => n + 10))).1.has u) = true
    ∧ ((List.range 9).map (fun n => n + 10)).all
        (fun u => (fillCacheLogged
            ((fillCache ImageCache.empty (List.range 10)).get 0).2
            ((List.range 9).map (fun n => n + 10))).1.has u) = true := by
  decide

/-- Claim C4: after every finite sequence of `get`, `set` and `has`
operations from the empty cache, there is at most one resident entry per
url (the key list of the underlying map has no duplicates) and the number
of resident entries never exceeds the capacity 10. -/
theorem c4_cache_capacity_invariant (ops : List CacheOp) :
    (keysOf (runOps ops).cache).Nodup ∧ (runOps ops).cache.length ≤ 10 := by
  obtain ⟨hnd, hsub, hlen, hmax⟩ := cacheInv_runOps ops
  refine ⟨hnd, ?_⟩
  have hsp : List.Subperm (keysOf (runOps ops).cache) (runOps ops).order :=
    hnd.subperm (fun {k} hk => hsub k hk)
  have h1 : (keysOf (runOps ops).cache).length ≤ (runOps ops).order.length :=
    hsp.length_le
  have h2 : (keysOf (runOps ops).cache).length = (runOps ops).cache.length :=
    List.length_map _ _
  omega

/-- Claim C10: for every url that is not resident, `ImageCache.get`
returns null and leaves the cache completely unchanged — no entry is added
or removed and the recency order is untouched. -/
theorem c10_get_miss_leaves_cache_unchanged (c : ImageCache) (u : Url)
    (h : c.has u = false) : c.get u = (none, c) := by
  have hm : mapGet c.cache u = none := by
    refine mapGet_eq_none_of_any_false ?_
    unfold ImageCache.has at h
    cases hx : c.cache.any (fun p => p.1 == u) with
    | true => rw [hx] at h; exact Bool.noConfusion h
    | false => rfl
  simp [ImageCache.get, hm]

/-- Witness for C10 at a concrete input: url 5 is not resident in the empty
cache and `get` returns null leaving the cache unchanged. -/
theorem c10_witness :
    ImageCache.empty.has 5 = false
    ∧ ImageCache.empty.get 5 = (none, ImageCache.empty) :=
  ⟨by decide, c10_get_miss_leaves_cache_unchanged ImageCache.empty 5 (by decide)⟩

/-- Claim C7: the texture transform ops are applied in the fixed order
translate(offX,offY) → optional horizontal-flip pair → optional
vertical-flip pair → optional centered-rotation triple, and in the
accumulated offset offsetX is increased by leftPosition while offsetY is
decreased by topPosition (vertical axis inverted), in both adapters. -/
theorem c7_transform_order (s : FillImageSettings) (w h ox oy W H r : ℚ)
    (hw : 0 < w) (hh : 0 < h) (hW : 0 < W) (hH : 0 < H) (hr : 0 < r) :
    textureOps (some s) w h ox oy = specTransformSeq s w h ox oy
    ∧ (pointTextFit (some s) W H r).offX
        = -(s.offsetLeft.getD 0) + s.leftPosition.getD 0
    ∧ (pointTextFit (some s) W H r).offY
        = -(s.offsetTop.getD 0) - s.topPosition.getD 0
    ∧ (compoundFit (some s) W H r).offX = s.leftPosition.getD 0
    ∧ (compoundFit (some s) W H r).offY = -(s.topPosition.getD 0) := by
  obtain ⟨hp1, hp2⟩ := ptxBase_pos hW hH hr
  have hq1 : 0 < (cpdBase W H r).1 ∧ 0 < (cpdBase W H r).2 := by
    by_cases hc : W < H
    · simp only [cpdBase, if_pos hc]
      exact ⟨mul_pos hH hr, hH⟩
    · simp only [cpdBase, if_neg hc]
      exact ⟨hW, div_pos hW hr⟩
  refine ⟨?_, ?_, ?_, ?_, ?_⟩
  · simp [textureOps, specTransformSeq, hw, hh]
  · simp only [pointTextFit, hp1, hp2, and_self, if_true]
    cases hol : s.offsetLeft <;> cases hlp : s.leftPosition <;> simp
  · simp only [pointTextFit, hp1, hp2, and_self, if_true]
    cases hot : s.offsetTop <;> cases htp : s.topPosition <;> simp
  · simp only [compoundFit, hq1.1, hq1.2, and_self, if_true]
    cases hlp : s.leftPosition <;> simp
  · simp only [compoundFit, hq1.1, hq1.2, and_self, if_true]
    cases htp : s.topPosition <;> simp

/-- Witness for C7 at a concrete input: fitted box 1×1, both flips on,
rotation 30, offsetLeft 2, offsetTop 3, leftPosition 5, topPosition 7. -/
theorem c7_transform_order_witness :
    textureOps
        (some { offsetLeft := some 2, offsetTop := some 3,
                leftPosition := some 5, topPosition := some 7,
                horizontalFlip := true, verticalFlip := true,
                rotationDeg := some 30 }) 1 1 0 0
      = specTransformSeq
        { offsetLeft := some 2, offsetTop := some 3,
          leftPosition := some 5, topPosition := some 7,
          horizontalFlip := true, verticalFlip := true,
          rotationDeg := some 30 } 1 1 0 0
    ∧ (pointTextFit
        (some { offsetLeft := some 2, offsetTop := some 3,
                leftPosition := some 5, topPosition := some 7,
                horizontalFlip := true, verticalFlip := true,
                rotationDeg := some 30 }) 1 1 1).offX
      = -(((some (2:ℚ)).getD 0)) + ((some (5:ℚ)).getD 0) := by
  have h := c7_transform_order
    { offsetLeft := some 2, offsetTop := some 3,
      leftPosition := some 5, topPosition := some 7,
      horizontalFlip := true, verticalFlip := true,
      rotationDeg := some 30 } 1 1 0 0 1 1 1
    (by norm_num) (by norm_num) (by norm_num) (by norm_num) (by norm_num)
  exact ⟨h.1, h.2.1⟩

/-- Claim C5 (amended): calling the texture-fill setter with a falsy url
performs no network activity and synchronously stores the cleared url; when
a resource is currently bound it also clears the binding, sets
`loaded = true` and emits one style-changed signal.  When no resource is
bound, `loaded` and the style-changed count are untouched (the claim's
`for every prior state` fails there; see the counterexample). -/
theorem c5_falsy_clears_when_bound (w : LoaderWorld)
    (hb : w.shape.textureFill.isSome = true) :
    (setTextureFill w none).shape.textureFill = none
    ∧ (setTextureFill w none).shape.loaded = true
    ∧ (setTextureFill w none).shape.styleChanged = w.shape.styleChanged + 1
    ∧ (setTextureFill w none).shape.textureFillUrl = none
    ∧ (setTextureFill w none).pending = w.pending
    ∧ (setTextureFill w none).cache = w.cache := by
  simp [setTextureFill, hb]

/-- Witness for C5 at a concrete input: a shape with a bound resource. -/
theorem c5_falsy_clears_when_bound_witness :
    ((⟨⟨some 0, some 0, true, 1, 1⟩, ImageCache.empty, []⟩ :
        LoaderWorld).shape.textureFill.isSome = true)
    ∧ (setTextureFill
        (⟨⟨some 0, some 0, true, 1, 1⟩, ImageCache.empty, []⟩ : LoaderWorld)
        none).shape.loaded = true
    ∧ (setTextureFill
        (⟨⟨some 0, some 0, true, 1, 1⟩, ImageCache.empty, []⟩ : LoaderWorld)
        none).shape.textureFill = none :=
  ⟨rfl,
   (c5_falsy_clears_when_bound
     (⟨⟨some 0, some 0, true, 1, 1⟩, ImageCache.empty, []⟩ : LoaderWorld)
     rfl).2.1,
   (c5_falsy_clears_when_bound
     (⟨⟨some 0, some 0, true, 1, 1⟩, ImageCache.empty, []⟩ : LoaderWorld)
     rfl).1⟩

/-- Counterexample to C5 as stated: on a pristine shape (no bound resource,
`loaded = false`), the falsy-url call leaves `loaded = false` and emits no
style-changed signal, while the claim requires `loaded = true` and a
style-changed emission for every prior state. -/
theorem c5_counterexample :
    LoaderWorld.init.shape.textureFill = none
    ∧ (setTextureFill LoaderWorld.init none).shape.loaded = false
    ∧ (setTextureFill LoaderWorld.init none).shape.styleChanged = 0 :=
  ⟨rfl, rfl, rfl⟩

/-- Claim C2 is violated by the code (code_bug): requesting url 0, then
url 1 before 0 resolves, and then letting 0's load completion fire binds
url 0's bitmap to the shape even though the shape's desired url is 1 — the
completion handler performs no staleness check. -/
theorem c2_stale_completion_binds :
    (fireLoad (setTextureFill (setTextureFill LoaderWorld.init (some 0))
        (some 1)) 0).shape.textureFill = some 0
    ∧ (fireLoad (setTextureFill (setTextureFill LoaderWorld.init (some 0))
        (some 1)) 0).shape.textureFillUrl = some 1
    ∧ (fireLoad (setTextureFill (setTextureFill LoaderWorld.init (some 0))
        (some 1)) 0).pending = [1] := by
  refine ⟨?_, ?_, ?_⟩ <;> rfl

/-- Claim C9 (amended): whenever the fit is degenerate (`drawW ≤ 0` or
`drawH ≤ 0` or the silhouette bounding-box height ≤ 0), in both adapters
the textured draw performs no `drawImage` of the texture bitmap and makes
no zero-size offscreen allocation (every acquisition in the trace has
positive dimensions; the condition is recovered locally, the trace
functions being total).  The claim's further conjunct that the shape still
renders its flat fill and stroke is not guaranteed: with a degenerate
silhouette (`W = 0`) the region draw returns before painting anything (see
the counterexample).  When only the fit is degenerate and the trial canvas
is valid, the region adapter does still fill, stroke and blit the
silhouette to the main context — its blit is unconditional past the early
return — while a line-run line paints nothing, its blit sitting inside the
positive-fit guard (both shown at the witness input). -/
theorem c9_degenerate_skips_texture_draw
    (hasChildren clip hasFill hasStroke : Bool)
    (s : Option FillImageSettings) (W H r : ℚ) :
    (degenerateFit (compoundFit s W H r) H →
      noTextureDraw
        (compoundDrawEffects hasChildren clip true hasFill hasStroke s W H r)
      ∧ acquiresPositive
        (compoundDrawEffects hasChildren clip true hasFill hasStroke s W H r))
    ∧ (degenerateFit (pointTextFit s W H r) H →
      noTextureDraw (pointTextLineEffects true hasFill hasStroke s W H r)
      ∧ acquiresPositive (pointTextLineEffects true hasFill hasStroke s W H r)) := by
  constructor
  · intro hdeg
    constructor
    · intro w h hmem
      obtain ⟨h1, h2, h3⟩ := drawTexture_mem_compound hmem
      rcases hdeg with hd | hd | hd
      · exact absurd h1 (not_lt.mpr hd)
      · exact absurd h2 (not_lt.mpr hd)
      · exact absurd h3 (not_lt.mpr hd)
    · intro w h hmem
      exact acquire_pos_compound hmem
  · intro hdeg
    constructor
    · intro w h hmem
      obtain ⟨h1, h2, h3⟩ := drawTexture_mem_pointText hmem
      rcases hdeg with hd | hd | hd
      · exact absurd h1 (not_lt.mpr hd)
      · exact absurd h2 (not_lt.mpr hd)
      · exact absurd h3 (not_lt.mpr hd)
    · intro w h hmem
      exact acquire_pos_pointText hmem

/-- Witness for C9 at a concrete input: settings with `scaling = 0` make
both fits degenerate at a 100×50 box with ratio 1, and the theorem yields
that neither adapter's trace draws the texture.  The trial canvas is valid
at this input, so the region adapter still fills, strokes and blits the
silhouette to the main context, while the line-run adapter never blits. -/
theorem c9_degenerate_skips_texture_draw_witness :
    degenerateFit
      (compoundFit (some { syncRatioFlag := true, scaling := some 0 })
        100 50 1) 50
    ∧ degenerateFit
      (pointTextFit (some { syncRatioFlag := true, scaling := some 0 })
        100 50 1) 50
    ∧ noTextureDraw (compoundDrawEffects true false true true true
        (some { syncRatioFlag := true, scaling := some 0 }) 100 50 1)
    ∧ noTextureDraw (pointTextLineEffects true true true
        (some { syncRatioFlag := true, scaling := some 0 }) 100 50 1)
    ∧ Eff.offscreenFill ∈ compoundDrawEffects true false true true true
        (some { syncRatioFlag := true, scaling := some 0 }) 100 50 1
    ∧ Eff.offscreenStroke ∈ compoundDrawEffects true false true true true
        (some { syncRatioFlag := true, scaling := some 0 }) 100 50 1
    ∧ Eff.blit ∈ compoundDrawEffects true false true true true
        (some { syncRatioFlag := true, scaling := some 0 }) 100 50 1
    ∧ Eff.blit ∉ pointTextLineEffects true true true
        (some { syncRatioFlag := true, scaling := some 0 }) 100 50 1 := by
  have hdc : degenerateFit
      (compoundFit (some { syncRatioFlag := true, scaling := some 0 })
        100 50 1) 50 := by
    left
    norm_num [compoundFit, cpdBase]
  have hdp : degenerateFit
      (pointTextFit (some { syncRatioFlag := true, scaling := some 0 })
        100 50 1) 50 := by
    left
    norm_num [pointTextFit, ptxBase]
  have j500 : jsRound (500:ℚ) = 500 := jsRound_eval (by norm_num) (by norm_num)
  have j375 : jsRound (375:ℚ) = 375 := jsRound_eval (by norm_num) (by norm_num)
  have j550 : jsRound (550:ℚ) = 550 := jsRound_eval (by norm_num) (by norm_num)
  have ec : compoundDrawEffects true false true true true
      (some { syncRatioFlag := true, scaling := some 0 }) 100 50 1
      = [Eff.acquire 200 150, Eff.offscreenFill, Eff.offscreenStroke,
         Eff.blit] := by
    norm_num [compoundDrawEffects, compoundFit, cpdBase, max_def, j500, j375]
  have ep : pointTextLineEffects true true true
      (some { syncRatioFlag := true, scaling := some 0 }) 100 50 1
      = [Eff.acquire 550 375, Eff.offscreenFill] := by
    norm_num [pointTextLineEffects, pointTextFit, ptxBase, max_def, j550, j375]
  refine ⟨hdc, hdp, ?_, ?_, ?_, ?_, ?_, ?_⟩
  · exact ((c9_degenerate_skips_texture_draw true false true true
      (some { syncRatioFlag := true, scaling := some 0 }) 100 50 1).1 hdc).1
  · exact ((c9_degenerate_skips_texture_draw true false true true
      (some { syncRatioFlag := true, scaling := some 0 }) 100 50 1).2 hdp).1
  · rw [ec]; simp
  · rw [ec]; simp
  · rw [ec]; simp
  · rw [ep]; simp

/-- Counterexample to C9 as stated: with a degenerate silhouette (`W = 0`,
`H = 10`) the region adapter's textured draw returns before painting
anything — in particular the flat fill is not rendered, although the style
has a fill, contradicting the claim's "the shape still renders its flat
fill and stroke". -/
theorem c9_counterexample :
    compoundDrawEffects true false true true true none 0 10 1 = []
    ∧ Eff.flatFill ∉ compoundDrawEffects true false true true true none 0 10 1
    ∧ Eff.flatStroke ∉ compoundDrawEffects true false true true true none 0 10 1 := by
  have hz : jsRound (0:ℚ) = 0 :=
    jsRound_eval (by norm_num) (by norm_num)
  have he : compoundDrawEffects true false true true true none 0 10 1 = [] := by
    simp [compoundDrawEffects, hz]
  refine ⟨he, ?_, ?_⟩ <;> rw [he] <;> exact List.not_mem_nil _

/-- Claim C8 is violated by the code (code_bug): on a normal textured
region draw (bounds 100×50, ratio 1, fill and stroke set) the trace
acquires one offscreen context and never releases it — the only
`CanvasProvider.release` in `CompoundPath._draw` sits in the disabled DEBUG
block; and on the line-run adapter's degenerate-fit path (`scaling = 0`)
the acquired context is likewise never released, since the release call
sits inside the positive-fit guard. -/
theorem c8_offscreen_surface_leak :
    ((compoundDrawEffects true false true true true none 100 50 1).countP
        (fun e => match e with | Eff.acquire _ _ => true | _ => false) = 1
      ∧ (compoundDrawEffects true false true true true none 100 50 1).countP
        (fun e => match e with | Eff.release => true | _ => false) = 0)
    ∧ ((pointTextLineEffects true true true
          (some { syncRatioFlag := true, scaling := some 0 }) 100 50 1).countP
        (fun e => match e with | Eff.acquire _ _ => true | _ => false) = 1
      ∧ (pointTextLineEffects true true true
          (some { syncRatioFlag := true, scaling := some 0 }) 100 50 1).countP
        (fun e => match e with | Eff.release => true | _ => false) = 0) := by
  have j500 : jsRound (500:ℚ) = 500 := jsRound_eval (by norm_num) (by norm_num)
  have j375 : jsRound (375:ℚ) = 375 := jsRound_eval (by norm_num) (by norm_num)
  have j550 : jsRound (550:ℚ) = 550 := jsRound_eval (by norm_num) (by norm_num)
  have e1 : compoundDrawEffects true false true true true none 100 50 1
      = [Eff.acquire 200 150, Eff.offscreenFill, Eff.drawTexture 100 100,
         Eff.offscreenStroke, Eff.blit] := by
    norm_num [compoundDrawEffects, compoundFit, cpdBase, max_def, j500, j375]
  have e2 : pointTextLineEffects true true true
      (some { syncRatioFlag := true, scaling := some 0 }) 100 50 1
      = [Eff.acquire 550 375, Eff.offscreenFill] := by
    norm_num [pointTextLineEffects, pointTextFit, ptxBase, max_def, j550, j375]
  refine ⟨⟨?_, ?_⟩, ?_, ?_⟩
  · rw [e1]; rfl
  · rw [e1]; rfl
  · rw [e2]; rfl
  · rw [e2]; rfl

end PaperTexture
